import Mathlib

/-!
Verification of the BatchCSVtoSQL repository against its specification.

The repository consists of two Python scripts:
* `src/BatchCSVtoSQL.py` — streaming profiler (pandas, chunked), bucketed
  column sizing, schema generation and chunked typed insert;
* `src/BulkCSVtoSQL.py` — header-only table creation with column-name
  deduplication, truncate-or-create lifecycle, and server-side BULK INSERT.

Each definition below is a shallow embedding of the correspondingly named
function of the source; definitions whose name starts with `spec_` are
written from the specification's words and compared with the code-derived
ones.
-/

/-- Python `str.strip()`'s whitespace test (`str.isspace()`): ASCII
whitespace and separators U+0009–U+000D, U+001C–U+001F, U+0020, plus the
Unicode whitespace characters U+0085, U+00A0, U+1680, U+2000–U+200A,
U+2028, U+2029, U+202F, U+205F and U+3000. -/
def isPySpace (c : Char) : Bool :=
  (9 ≤ c.toNat && c.toNat ≤ 13) || (28 ≤ c.toNat && c.toNat ≤ 32) ||
    c.toNat = 133 || c.toNat = 160 || c.toNat = 5760 ||
    (8192 ≤ c.toNat && c.toNat ≤ 8202) || c.toNat = 8232 || c.toNat = 8233 ||
    c.toNat = 8239 || c.toNat = 8287 || c.toNat = 12288

/-- Python `str.strip()`: drop leading and trailing whitespace. -/
def pyStrip (s : String) : String :=
  String.mk (((s.data.dropWhile isPySpace).reverse.dropWhile isPySpace).reverse)

/-- Python `header.split(sep)` for a one-character separator: the list of
fields, always non-empty (the empty string yields one empty field). pandas'
own header split for a one-character separator on an unquoted line behaves
the same way. -/
def splitFields (sep : Char) : List Char → List (List Char)
  | [] => [[]]
  | c :: rest =>
    if c = sep then [] :: splitFields sep rest
    else
      match splitFields sep rest with
      | [] => [[c]]
      | f :: fs => (c :: f) :: fs

/-- Python `line.rstrip("\r\n")`: drop trailing carriage returns and
newlines (also how a parsed first line loses its record terminator). -/
def rstripCRLF (s : String) : String :=
  String.mk ((s.data.reverse.dropWhile (fun c => c = '\r' || c = '\n')).reverse)

/-- A decimal digit character. -/
def digitChar (d : Nat) : Char := Char.ofNat (48 + d)

/-- Decimal digit characters of `n`, most significant first; the fuel
argument (instantiated with `n` itself, which always suffices) makes the
division recursion structural. -/
def natDigitsAux : Nat → Nat → List Char
  | 0, n => [digitChar n]
  | fuel + 1, n =>
    if n < 10 then [digitChar n]
    else natDigitsAux fuel (n / 10) ++ [digitChar (n % 10)]

/-- Python `str(n)` / f-string rendering of a natural number. -/
def natStr (n : Nat) : String := String.mk (natDigitsAux n n)

/-- Numeric value of a digit character. -/
def digitVal (c : Char) : Nat := c.toNat - 48

/-- Parse a digit string back to its value (left inverse of rendering). -/
def parseDigits (l : List Char) : Nat := l.foldl (fun a c => 10 * a + digitVal c) 0

namespace BatchCSV

/-- Config constant `VARCHAR_MAX_THRESHOLD = 4000` of `BatchCSVtoSQL.py`
(widths above it become `VARCHAR(MAX)`). Python ints are unbounded, so `Int`. -/
def VARCHAR_MAX_THRESHOLD : Int := 4000

/-- Config constant `BUCKETS` of `BatchCSVtoSQL.py`: the ascending list of
rounded column sizes. -/
def BUCKETS : List Nat := [1, 10, 25, 50, 100, 255, 500, 1000, 2000, 4000]

/-- `escape_ident` of `BatchCSVtoSQL.py`: double every closing bracket. -/
def escape_ident (name : String) : String := name.replace "]" "]]"

/-- The `for b in BUCKETS: if max_len <= b: return str(b)` loop inside
`bucket_size`: first list element that is `>= max_len`, if any. -/
def firstBucketGE (max_len : Int) : List Nat → Option Nat
  | [] => none
  | b :: rest => if max_len ≤ (b : Int) then some b else firstBucketGE max_len rest

/-- `bucket_size` of `BatchCSVtoSQL.py`, returning the SQL size token as a
string exactly as the source does. -/
def bucket_size (max_len : Int) : String :=
  if max_len ≤ 0 then "1"
  else if max_len > VARCHAR_MAX_THRESHOLD then "MAX"
  else
    match firstBucketGE max_len BUCKETS with
    | some b => toString b
    | none => toString VARCHAR_MAX_THRESHOLD

/-- A column width: either a bounded `VARCHAR(n)` width or the `MAX`
(unbounded) sentinel. -/
inductive Width where
  | bounded : Nat → Width
  | unbounded : Width
deriving DecidableEq, Repr

/-- Render a width as the token appearing inside `VARCHAR(...)`. -/
def Width.render : Width → String
  | .bounded n => toString n
  | .unbounded => "MAX"

/-- The total order on widths in which the unbounded sentinel is greatest. -/
def Width.wle : Width → Width → Bool
  | _, .unbounded => true
  | .unbounded, .bounded _ => false
  | .bounded m, .bounded n => m ≤ n

/-- `bucket_size` of `BatchCSVtoSQL.py` viewed structurally: same branches as
`bucket_size`, producing a `Width` instead of its string rendering. -/
def bucket_width (max_len : Int) : Width :=
  if max_len ≤ 0 then .bounded 1
  else if max_len > VARCHAR_MAX_THRESHOLD then .unbounded
  else
    match firstBucketGE max_len BUCKETS with
    | some b => .bounded b
    | none => .bounded VARCHAR_MAX_THRESHOLD.toNat

/-- Sizing rule written from the specification's words: `width <= 0` maps to
the smallest configured bucket; a width above the unbounded threshold maps to
the unbounded sentinel; otherwise the smallest bucket that is `>= width`,
falling back to the threshold itself when no bucket qualifies. -/
def spec_size (w : Int) : Width :=
  if w ≤ 0 then .bounded ((BUCKETS.min?).getD 0)
  else if w > VARCHAR_MAX_THRESHOLD then .unbounded
  else
    match (BUCKETS.filter (fun b : Nat => decide (w ≤ (b : Int)))).min? with
    | some b => .bounded b
    | none => .bounded VARCHAR_MAX_THRESHOLD.toNat

/-- A cell value of a frame read with `dtype="string"`: `none` is pandas NA. -/
abbrev Value := Option String

/-- A pandas DataFrame as the profiler and loader see it: an ordered
association of column names to columns of optional strings. -/
abbrev DF := List (String × List Value)

/-- Number of rows of a frame: the length of its first column (frames read
from a CSV are rectangular; `dfWF` states rectangularity). -/
def dfRowCount (df : DF) : Nat :=
  match df with
  | [] => 0
  | p :: _ => p.2.length

/-- Rectangularity: any two columns have the same length. -/
def dfWF (df : DF) : Prop := ∀ p ∈ df, ∀ q ∈ df, p.2.length = q.2.length

/-- First `k` rows of a frame. -/
def dfTake (k : Nat) (df : DF) : DF := df.map (fun p => (p.1, p.2.take k))

/-- All but the first `k` rows of a frame. -/
def dfDrop (k : Nat) (df : DF) : DF := df.map (fun p => (p.1, p.2.drop k))

/-- The chunk splitting of `pd.read_csv(..., chunksize=k)` for a file with
data rows: successive frames of `k` rows. The fuel argument (instantiated
with the row count, sufficient for any chunk size `k ≥ 1`) makes the
recursion structural. -/
def chunksOfAux (k : Nat) : Nat → DF → List DF
  | 0, _ => []
  | fuel + 1, df =>
    if dfRowCount df = 0 then []
    else dfTake k df :: chunksOfAux k fuel (dfDrop k df)

/-- The chunks of one file as read with `chunksize=k`: for a file with no
data rows pandas' chunked reader still yields one empty frame carrying the
header columns (first-chunk handling, pandas GH-9535), and ⌈rows/k⌉ frames
otherwise. -/
def chunksOf (k : Nat) (df : DF) : List DF :=
  if dfRowCount df = 0 then [df] else chunksOfAux k (dfRowCount df) df

/-- `df[col]` after `df.columns = [c.strip() for c in df.columns]`: the first
column whose stripped name is `c`; `none` models the pandas `KeyError`. -/
def findCol (c : String) : DF → Option (List Value)
  | [] => none
  | p :: rest => if pyStrip p.1 = c then some p.2 else findCol c rest

/-- One column's accumulator in `profile_max_lengths`:
`{"max_len": 0, "nullable": False}`. -/
structure ColStat where
  max_len : Nat
  nullable : Bool
deriving DecidableEq, Repr

/-- Length of one value after `fillna("")`: NA counts 0, any other value its
number of Unicode scalar values (Python `len`). -/
def lenOf : Value → Nat
  | none => 0
  | some s => s.length

/-- The per-chunk, per-column update of `profile_max_lengths`:
`nullable |= s.isna().any()` and `max_len = max(max_len, lengths.max())`. -/
def updateCol (st : ColStat) (vs : List Value) : ColStat :=
  { max_len := max st.max_len ((vs.map lenOf).foldl max 0),
    nullable := st.nullable || vs.any Option.isNone }

/-- The `for col in columns` loop over one chunk: look each canonical column
up by name (a missing one raises `KeyError`, the schema mismatch) and fold
its values into that column's stats. -/
def stepCols (df : DF) : List String → List ColStat → Except Unit (List ColStat)
  | [], _ => .ok []
  | _ :: _, [] => .ok []
  | c :: cs, st :: sts =>
    match findCol c df with
    | none => .error ()
    | some vs =>
      match stepCols df cs sts with
      | .error e => .error e
      | .ok rest => .ok (updateCol st vs :: rest)

/-- Processing one chunk of the profiling pass. -/
def stepChunk (columns : List String) (stats : List ColStat) (df : DF) :
    Except Unit (List ColStat) :=
  stepCols df columns stats

/-- `stats = {c: {"max_len": 0, "nullable": False} for c in columns}`. -/
def initStats (columns : List String) : List ColStat :=
  columns.map (fun _ => { max_len := 0, nullable := false })

/-- The `for df in reader` loop: fold the chunks of one file into the stats,
aborting on the first schema mismatch. -/
def profileChunks (columns : List String) : List ColStat → List DF → Except Unit (List ColStat)
  | stats, [] => .ok stats
  | stats, ck :: rest =>
    match stepChunk columns stats ck with
    | .error e => .error e
    | .ok stats2 => profileChunks columns stats2 rest

/-- The `for path in files` loop of `profile_max_lengths`. -/
def profileFiles (k : Nat) (columns : List String) : List ColStat → List DF → Except Unit (List ColStat)
  | stats, [] => .ok stats
  | stats, f :: rest =>
    match profileChunks columns stats (chunksOf k f) with
    | .error e => .error e
    | .ok st2 => profileFiles k columns st2 rest

/-- `profile_max_lengths` of `BatchCSVtoSQL.py`: profile a corpus of frames,
reading each file in chunks of `k` rows. -/
def profile_max_lengths (k : Nat) (files : List DF) (columns : List String) :
    Except Unit (List ColStat) :=
  profileFiles k columns (initStats columns) files

/-- `df = df[columns]` in `load_all_csvs`: select the canonical columns in
canonical order; a missing one raises `KeyError`. -/
def selectCols (df : DF) : List String → Except Unit DF
  | [] => .ok []
  | c :: cs =>
    match findCol c df with
    | none => .error ()
    | some vs =>
      match selectCols df cs with
      | .error e => .error e
      | .ok rest => .ok ((c, vs) :: rest)

/-- The rows of a frame in column order: what `df.to_sql(...)` appends. -/
def dfRows (df : DF) : List (List Value) :=
  (List.range (dfRowCount df)).map (fun i => df.map (fun p => p.2.getD i none))

/-- Loading the chunks of one file: each realigned chunk's rows are appended
to the table; a missing canonical column aborts, keeping the rows already
appended. -/
def loadChunks (columns : List String) : List DF → List (List Value) → List (List Value) × Bool
  | [], acc => (acc, false)
  | ck :: rest, acc =>
    match selectCols ck columns with
    | .error _ => (acc, true)
    | .ok sel => loadChunks columns rest (acc ++ dfRows sel)

/-- The `for path in files` loop of `load_all_csvs`. -/
def loadFiles (k : Nat) (columns : List String) : List DF → List (List Value) → List (List Value) × Bool
  | [], acc => (acc, false)
  | f :: rest, acc =>
    match loadChunks columns (chunksOf k f) acc with
    | (acc2, true) => (acc2, true)
    | (acc2, false) => loadFiles k columns rest acc2

/-- `load_all_csvs` of `BatchCSVtoSQL.py`: the rows appended to the target
table, in file/chunk order, paired with `true` when the run aborted on a
missing canonical column. -/
def load_all_csvs (k : Nat) (files : List DF) (columns : List String) :
    List (List Value) × Bool :=
  loadFiles k columns files []

/-- pandas default NA sentinels under `keep_default_na=True`, as configured
at both `read_csv` call sites of `BatchCSVtoSQL.py`; these raw fields decode
to NA. Modelled from pandas' documented `na_values` defaults. -/
def PANDAS_DEFAULT_NA : List String :=
  ["", "#N/A", "#N/A N/A", "#NA", "-1.#IND", "-1.#QNAN", "-NaN", "-nan",
   "1.#IND", "1.#QNAN", "<NA>", "N/A", "NA", "NULL", "NaN", "None", "n/a", "nan", "null"]

/-- Decoding of one raw CSV field by `pd.read_csv(..., dtype="string",
keep_default_na=True)`: a default NA sentinel becomes NA, anything else —
including whitespace-only fields, which pandas does not trim — is kept
verbatim. -/
def decodeField (r : String) : Value :=
  if r ∈ PANDAS_DEFAULT_NA then none else some r

/-- A chunk is bad for the canonical column list when some canonical column
is missing from it (the pandas `KeyError` condition). -/
def chunkBad (columns : List String) (df : DF) : Bool :=
  columns.any (fun c => (findCol c df).isNone)

/-- The pure (error-free) denotation of one chunk's stats update. -/
def pureStep (df : DF) : List String → List ColStat → List ColStat :=
  List.zipWith (fun c st => updateCol st ((findCol c df).getD []))

/-- Config `CSV_SEPARATOR = ","` of `BatchCSVtoSQL.py`. -/
def CSV_SEPARATOR : Char := ','

/-- The raw header fields of the first line, as `pd.read_csv` splits them at
this call site (one-character separator, fields kept verbatim, record
terminator stripped). -/
def headerFields (line : String) : List String :=
  (splitFields CSV_SEPARATOR (rstripCRLF line).data).map String.mk

/-- Modelled from pandas `read_csv` header decoding: an empty header field
at position `i` is read as the column name `Unnamed: i`; the parser never
rejects a header field. -/
def unnamedSub (fields : List String) : List String :=
  fields.enum.map (fun p => if p.2 = "" then "Unnamed: " ++ natStr p.1 else p.2)

/-- Lookup in the running name-count table of pandas `dedup_names`
(`counts.get(col, 0)`). -/
def getCount : List (String × Nat) → String → Nat
  | [], _ => 0
  | p :: rest, c => if p.1 = c then p.2 else getCount rest c

/-- Update of the running name-count table of pandas `dedup_names`
(`counts[col] = v`). -/
def setCount : List (String × Nat) → String → Nat → List (String × Nat)
  | [], c, v => [(c, v)]
  | p :: rest, c, v => if p.1 = c then (c, v) :: rest else p :: setCount rest c v

/-- The inner `while cur_count > 0` loop of pandas `dedup_names`: rename a
colliding name `X` to `X.1`, `X.2`, … until the name is fresh, bumping the
count of each name passed through. Fuel (one more than the table size,
which bounds the chain of positive-count names) makes the loop
structural. -/
def dedupWhile : Nat → List (String × Nat) → String → String × List (String × Nat)
  | 0, counts, col => (col, counts)
  | fuel + 1, counts, col =>
    if getCount counts col > 0 then
      dedupWhile fuel (setCount counts col (getCount counts col + 1))
        (col ++ "." ++ natStr (getCount counts col))
    else (col, counts)

/-- Modelled from pandas `dedup_names`: duplicated header names are
suffixed `.1`, `.2`, …; a name with no earlier occurrence passes through
unchanged. -/
def dedupNames : List (String × Nat) → List String → List String
  | _, [] => []
  | counts, c :: rest =>
    match dedupWhile (counts.length + 1) counts c with
    | (col, counts2) =>
      col :: dedupNames (setCount counts2 col (getCount counts2 col + 1)) rest

/-- `read_header_columns` of `BatchCSVtoSQL.py`: the column names of
`pd.read_csv(first_csv, nrows=0, sep=CSV_SEPARATOR)`, each stripped by the
surrounding source. Modelled from pandas: the parser never fails on an
empty-after-trim header field (it substitutes `Unnamed: i`) and suffixes
duplicate names via `dedup_names`. -/
def read_header_columns (line : String) : List String :=
  (dedupNames [] (unnamedSub (headerFields line))).map pyStrip

end BatchCSV

namespace BulkCSV

/-- Config `FIELDTERMINATOR = ","` of `BulkCSVtoSQL.py`. -/
def FIELDTERMINATOR : Char := ','

/-- Config `DEFAULT_VARCHAR_LEN = 4000` of `BulkCSVtoSQL.py`. -/
def DEFAULT_VARCHAR_LEN : Nat := 4000

/-- `qident` of `BulkCSVtoSQL.py`: SQL Server identifier quoting. -/
def qident (name : String) : String := "[" ++ name.replace "]" "]]" ++ "]"

/-- `read_header_columns` of `BulkCSVtoSQL.py`, applied to the first line of
the first file: strip the record terminator, split on the field terminator,
strip each field; `ValueError` (the malformed-header failure) when the field
list is empty or some field is empty after stripping. -/
def read_header_columns (headerLine : String) : Except Unit (List String) :=
  let cols := (splitFields FIELDTERMINATOR (rstripCRLF headerLine).data).map
    (fun f => pyStrip (String.mk f))
  if cols.isEmpty || cols.any (fun c => c = "") then .error ()
  else .ok cols

/-- The candidate name `f"{col}_{i}"` of `create_table_from_header`. -/
def suffixName (col : String) (i : Nat) : String := col ++ "_" ++ natStr i

/-- The `while f"{col}_{i}" in seen: i += 1` search of
`create_table_from_header`, with fuel; `seen.length + 1` iterations always
suffice because the candidate names are pairwise distinct. -/
def findSuffixAux (col : String) (seen : List String) : Nat → Nat → Nat
  | 0, i => i
  | fuel + 1, i =>
    if suffixName col i ∈ seen then findSuffixAux col seen fuel (i + 1) else i

/-- The suffix chosen for a colliding column name (the loop starts at 2). -/
def findSuffix (col : String) (seen : List String) : Nat :=
  findSuffixAux col seen (seen.length + 1) 2

/-- The per-column renaming step of `create_table_from_header`. -/
def pickName (seen : List String) (c : String) : String :=
  if c ∈ seen then suffixName c (findSuffix c seen) else c

/-- The deduplication loop of `create_table_from_header`; `seen` holds the
already assigned names in assignment order (Python keeps them in a set, and
only membership is ever queried). -/
def dedupAux (seen : List String) : List String → List String
  | [] => []
  | c :: rest =>
    pickName seen c :: dedupAux (seen ++ [pickName seen c]) rest

/-- The `safe_cols` computation of `create_table_from_header`. -/
def dedupCols (columns : List String) : List String := dedupAux [] columns

/-- One rendered column definition of the header-only create path:
`f"{qident(c)} VARCHAR({DEFAULT_VARCHAR_LEN}) NULL"`. -/
def colDefSql (c : String) : String :=
  qident c ++ " VARCHAR(" ++ natStr DEFAULT_VARCHAR_LEN ++ ") NULL"

/-- `create_table_from_header` of `BulkCSVtoSQL.py`: the `CREATE TABLE`
statement text it executes. -/
def create_table_from_header (schema table : String) (columns : List String) : String :=
  "CREATE TABLE " ++ qident schema ++ "." ++ qident table ++ " (\n  " ++
    String.intercalate ",\n  " ((dedupCols columns).map colDefSql) ++ "\n);"

/-- A structured column definition: name, width and nullability, as the
specification's `TableDefinition` holds them. -/
structure ColDef where
  name : String
  width : Nat
  nullable : Bool

/-- Render a structured column definition as SQL text. -/
def renderColDef (cd : ColDef) : String :=
  qident cd.name ++ " VARCHAR(" ++ natStr cd.width ++ ") " ++
    (if cd.nullable then "NULL" else "NOT NULL")

/-- An abstract CSV source file: its path and its header line. -/
structure CsvFile where
  path : String
  headerLine : String

/-- The target store as `main` observes it: the existence-probe result, the
current table's column list and its loaded payloads (one entry per
bulk-inserted file). -/
structure Store where
  tablePresent : Bool
  tableCols : List String
  tableRows : List String

/-- One observable store operation of a run of `main`. -/
inductive Event where
  | probe : Bool → Event
  | truncateTable : Event
  | createTable : List String → Event
  | bulkInsert : String → Event
deriving DecidableEq, Repr

/-- A fatal error of `main`. -/
inductive RunError where
  | emptyCorpus : RunError
  | malformedHeader : RunError
deriving DecidableEq, Repr

/-- `main` of `BulkCSVtoSQL.py`: enumerate files, probe the table once,
truncate it when present (trusting its schema as-is) or create it from the
first file's header when absent, then BULK INSERT every file in manifest
order. Returns the final store and the ordered trace of store operations. -/
def main (st : Store) (files : List CsvFile) : Except RunError (Store × List Event) :=
  if files.isEmpty then .error .emptyCorpus
  else
    if st.tablePresent then
      .ok ({ st with tableRows := files.map CsvFile.path },
        Event.probe true :: Event.truncateTable ::
          files.map (fun f => Event.bulkInsert f.path))
    else
      match read_header_columns (files.headD ⟨"", ""⟩).headerLine with
      | .error _ => .error .malformedHeader
      | .ok cols =>
        .ok ({ tablePresent := true, tableCols := dedupCols cols,
               tableRows := files.map CsvFile.path },
          Event.probe false :: Event.createTable (dedupCols cols) ::
            files.map (fun f => Event.bulkInsert f.path))

end BulkCSV


namespace BatchCSV

theorem foldl_min_of_le {b : Nat} :
    ∀ {t : List Nat}, (∀ x ∈ t, b ≤ x) → t.foldl min b = b := by
  intro t
  induction t with
  | nil => intro _; rfl
  | cons x t ih =>
    intro h
    have hbx : min b x = b := Nat.min_eq_left (h x (by simp))
    simp only [List.foldl_cons, hbx]
    exact ih (fun y hy => h y (by simp [hy]))

theorem firstBucketGE_eq_min (w : Int) :
    ∀ l : List Nat, l.Pairwise (· ≤ ·) →
      firstBucketGE w l = (l.filter (fun b : Nat => decide (w ≤ (b : Int)))).min? := by
  intro l
  induction l with
  | nil => intro _; rfl
  | cons b rest ih =>
    intro hp
    rw [List.pairwise_cons] at hp
    by_cases hwb : w ≤ (b : Int)
    · simp only [firstBucketGE, if_pos hwb, List.filter_cons, decide_eq_true hwb, if_true]
      rw [List.min?_cons']
      have : ∀ x ∈ (rest.filter (fun c : Nat => decide (w ≤ (c : Int)))), b ≤ x := by
        intro x hx
        exact hp.1 x (List.mem_of_mem_filter hx)
      rw [foldl_min_of_le this]
    · simp only [firstBucketGE, if_neg hwb, List.filter_cons]
      have : (decide (w ≤ (b : Int))) = false := by simp [hwb]
      rw [this]
      simp only [Bool.false_eq_true, if_false]
      exact ih hp.2

theorem mem_of_firstBucketGE {w : Int} :
    ∀ {l : List Nat} {b : Nat}, firstBucketGE w l = some b → b ∈ l := by
  intro l
  induction l with
  | nil => intro b h; simp [firstBucketGE] at h
  | cons x rest ih =>
    intro b h
    by_cases hwx : w ≤ (x : Int)
    · simp only [firstBucketGE, if_pos hwx, Option.some.injEq] at h
      simp [h]
    · simp only [firstBucketGE, if_neg hwx] at h
      simp [ih h]

theorem le_of_firstBucketGE {w : Int} :
    ∀ {l : List Nat} {b : Nat}, firstBucketGE w l = some b → w ≤ (b : Int) := by
  intro l
  induction l with
  | nil => intro b h; simp [firstBucketGE] at h
  | cons x rest ih =>
    intro b h
    by_cases hwx : w ≤ (x : Int)
    · simp only [firstBucketGE, if_pos hwx, Option.some.injEq] at h
      exact h ▸ hwx
    · simp only [firstBucketGE, if_neg hwx] at h
      exact ih h

theorem firstBucketGE_none_mono {w1 w2 : Int} (hw : w1 ≤ w2) :
    ∀ {l : List Nat}, firstBucketGE w1 l = none → firstBucketGE w2 l = none := by
  intro l
  induction l with
  | nil => intro _; rfl
  | cons x rest ih =>
    intro h
    by_cases hwx : w1 ≤ (x : Int)
    · simp [firstBucketGE, if_pos hwx] at h
    · simp only [firstBucketGE, if_neg hwx] at h
      have hw2x : ¬ w2 ≤ (x : Int) := by omega
      simp only [firstBucketGE, if_neg hw2x]
      exact ih h

theorem firstBucketGE_mono {w1 w2 : Int} (hw : w1 ≤ w2) :
    ∀ {l : List Nat}, l.Pairwise (· ≤ ·) →
      ∀ {b2 : Nat}, firstBucketGE w2 l = some b2 →
        ∃ b1, firstBucketGE w1 l = some b1 ∧ b1 ≤ b2 := by
  intro l
  induction l with
  | nil => intro _ b2 h; simp [firstBucketGE] at h
  | cons x rest ih =>
    intro hp b2 h
    rw [List.pairwise_cons] at hp
    by_cases hw1x : w1 ≤ (x : Int)
    · refine ⟨x, by simp [firstBucketGE, if_pos hw1x], ?_⟩
      by_cases hw2x : w2 ≤ (x : Int)
      · simp only [firstBucketGE, if_pos hw2x, Option.some.injEq] at h
        omega
      · simp only [firstBucketGE, if_neg hw2x] at h
        exact hp.1 b2 (mem_of_firstBucketGE h)
    · have hw2x : ¬ w2 ≤ (x : Int) := by omega
      simp only [firstBucketGE, if_neg hw1x, if_neg hw2x] at h ⊢
      exact ih hp.2 h

theorem buckets_sorted : BUCKETS.Pairwise (· ≤ ·) := by decide

theorem bucket_width_renders : ∀ w : Int, bucket_size w = (bucket_width w).render := by
  intro w
  unfold bucket_size bucket_width
  by_cases h0 : w ≤ 0
  · simp only [if_pos h0]; decide
  · by_cases hm : w > VARCHAR_MAX_THRESHOLD
    · simp [if_neg h0, if_pos hm, Width.render]
    · simp only [if_neg h0, if_neg hm]
      cases hfb : firstBucketGE w BUCKETS with
      | some b => simp [hfb, Width.render]
      | none => simp [hfb, Width.render]; decide

/-- C2: for every integer width, `bucket_size` realizes the specification's
sizing rules: non-positive widths map to the smallest configured bucket,
widths above the unbounded threshold map to the `MAX` sentinel, and other
widths map to the smallest bucket `>= width` with the threshold itself as
fallback. -/
theorem C2_bucket_size_follows_spec (w : Int) : bucket_size w = (spec_size w).render := by
  rw [bucket_width_renders]
  unfold bucket_width spec_size
  by_cases h0 : w ≤ 0
  · simp only [if_pos h0]
    decide
  · by_cases hm : w > VARCHAR_MAX_THRESHOLD
    · simp only [if_neg h0, if_pos hm]
    · simp only [if_neg h0, if_neg hm]
      rw [firstBucketGE_eq_min w BUCKETS buckets_sorted]

/-- C2 witness: the rule evaluated at width 17 (bucket 25). -/
theorem C2_bucket_size_follows_spec_witness :
    bucket_size 17 = (spec_size 17).render := C2_bucket_size_follows_spec 17

theorem wle_bounded_one : ∀ w : Int, (Width.bounded 1).wle (bucket_width w) = true := by
  intro w
  unfold bucket_width
  by_cases h0 : w ≤ 0
  · simp [if_pos h0, Width.wle]
  · by_cases hm : w > VARCHAR_MAX_THRESHOLD
    · simp [if_neg h0, if_pos hm, Width.wle]
    · simp only [if_neg h0, if_neg hm]
      cases hfb : firstBucketGE w BUCKETS with
      | some b =>
        have hb : b ∈ BUCKETS := mem_of_firstBucketGE hfb
        have h1b : 1 ≤ b := by
          simp only [BUCKETS, List.mem_cons, List.not_mem_nil, or_false] at hb
          rcases hb with rfl | rfl | rfl | rfl | rfl | rfl | rfl | rfl | rfl | rfl <;> decide
        simpa [Width.wle] using h1b
      | none => decide

/-- C3: the bucket sizer is monotonic non-decreasing under the total order on
widths in which the unbounded sentinel is greatest, and widths 0 and -1 both
map to the smallest configured bucket. -/
theorem C3_bucket_size_monotone :
    (∀ w1 w2 : Int, w1 ≤ w2 → (bucket_width w1).wle (bucket_width w2) = true) ∧
      bucket_width 0 = .bounded 1 ∧ bucket_width (-1) = .bounded 1 := by
  refine ⟨?_, by rfl, by rfl⟩
  intro w1 w2 hw
  by_cases h10 : w1 ≤ 0
  · have : bucket_width w1 = .bounded 1 := by
      unfold bucket_width
      simp [if_pos h10]
    rw [this]
    exact wle_bounded_one w2
  · by_cases h1m : w1 > VARCHAR_MAX_THRESHOLD
    · have h2m : w2 > VARCHAR_MAX_THRESHOLD := by omega
      have e1 : bucket_width w1 = .unbounded := by
        unfold bucket_width; simp [if_neg h10, if_pos h1m]
      have e2 : bucket_width w2 = .unbounded := by
        unfold bucket_width
        have h20 : ¬ w2 ≤ 0 := by omega
        simp [if_neg h20, if_pos h2m]
      rw [e1, e2]; rfl
    · by_cases h2m : w2 > VARCHAR_MAX_THRESHOLD
      · have e2 : bucket_width w2 = .unbounded := by
          unfold bucket_width
          have h20 : ¬ w2 ≤ 0 := by omega
          simp [if_neg h20, if_pos h2m]
        rw [e2]
        cases bucket_width w1 <;> rfl
      · have h20 : ¬ w2 ≤ 0 := by omega
        have e1 : bucket_width w1 = match firstBucketGE w1 BUCKETS with
            | some b => .bounded b
            | none => .bounded VARCHAR_MAX_THRESHOLD.toNat := by
          unfold bucket_width; simp [if_neg h10, if_neg h1m]
        have e2 : bucket_width w2 = match firstBucketGE w2 BUCKETS with
            | some b => .bounded b
            | none => .bounded VARCHAR_MAX_THRESHOLD.toNat := by
          unfold bucket_width; simp [if_neg h20, if_neg h2m]
        rw [e1, e2]
        cases hf2 : firstBucketGE w2 BUCKETS with
        | some b2 =>
          obtain ⟨b1, hf1, hb⟩ := firstBucketGE_mono hw buckets_sorted hf2
          rw [hf1]
          simpa [Width.wle] using hb
        | none =>
          cases hf1 : firstBucketGE w1 BUCKETS with
          | some b1 =>
            have hb1 : b1 ∈ BUCKETS := mem_of_firstBucketGE hf1
            have hle : b1 ≤ VARCHAR_MAX_THRESHOLD.toNat := by
              simp only [BUCKETS, List.mem_cons, List.not_mem_nil, or_false] at hb1
              rcases hb1 with rfl | rfl | rfl | rfl | rfl | rfl | rfl | rfl | rfl | rfl <;> decide
            simpa [Width.wle] using hle
          | none => simp [Width.wle]

/-- C3 witness: monotonicity applied at the concrete pair 3 ≤ 4800. -/
theorem C3_bucket_size_monotone_witness :
    (bucket_width 3).wle (bucket_width 4800) = true :=
  C3_bucket_size_monotone.1 3 4800 (by decide)

theorem findCol_dfTake (k : Nat) (c : String) :
    ∀ df : DF, findCol c (dfTake k df) = (findCol c df).map (List.take k) := by
  intro df
  induction df with
  | nil => rfl
  | cons p rest ih =>
    simp only [dfTake, List.map_cons, findCol] at ih ⊢
    by_cases h : pyStrip p.1 = c
    · simp [h]
    · simp only [if_neg h]
      exact ih

theorem findCol_dfDrop (k : Nat) (c : String) :
    ∀ df : DF, findCol c (dfDrop k df) = (findCol c df).map (List.drop k) := by
  intro df
  induction df with
  | nil => rfl
  | cons p rest ih =>
    simp only [dfDrop, List.map_cons, findCol] at ih ⊢
    by_cases h : pyStrip p.1 = c
    · simp [h]
    · simp only [if_neg h]
      exact ih

theorem foldl_max_init (l : List Nat) : ∀ a : Nat, l.foldl max a = max a (l.foldl max 0) := by
  induction l with
  | nil => intro a; simp
  | cons x t ih =>
    intro a
    simp only [List.foldl_cons]
    rw [ih (max a x), ih (max 0 x), Nat.zero_max, Nat.max_assoc]

theorem updateCol_append (st : ColStat) (t d : List Value) :
    updateCol (updateCol st t) d = updateCol st (t ++ d) := by
  unfold updateCol
  simp only [List.map_append, List.foldl_append, List.any_append, ColStat.mk.injEq]
  constructor
  · rw [foldl_max_init ((d.map lenOf)) (((t.map lenOf)).foldl max 0), Nat.max_assoc]
  · rw [Bool.or_assoc]

theorem updateCol_take_drop (st : ColStat) (k : Nat) (vs : List Value) :
    updateCol (updateCol st (vs.take k)) (vs.drop k) = updateCol st vs := by
  rw [updateCol_append, List.take_append_drop]

theorem stepChunk_eq (df : DF) :
    ∀ (columns : List String) (stats : List ColStat), stats.length = columns.length →
      stepChunk columns stats df =
        if chunkBad columns df then .error ()
        else .ok (pureStep df columns stats) := by
  intro columns
  induction columns with
  | nil =>
    intro stats h
    have hnil : stats = [] := List.eq_nil_of_length_eq_zero h
    subst hnil
    rfl
  | cons c cs ih =>
    intro stats h
    cases stats with
    | nil => simp at h
    | cons st sts =>
      have hlen : sts.length = cs.length := by simpa using h
      have hcons : chunkBad (c :: cs) df = ((findCol c df).isNone || chunkBad cs df) := by
        simp only [chunkBad, List.any_cons]
      show stepCols df (c :: cs) (st :: sts) = _
      rw [hcons]
      cases hf : findCol c df with
      | none =>
        simp only [stepCols, hf, Option.isNone_none, Bool.true_or, if_true]
      | some vs =>
        have hrec := ih sts hlen
        simp only [stepChunk] at hrec
        simp only [stepCols, hf, Option.isNone_some, Bool.false_or]
        rw [hrec]
        by_cases hb : chunkBad cs df
        · rw [if_pos hb, if_pos hb]
        · rw [if_neg hb, if_neg hb]
          simp only [pureStep, List.zipWith_cons_cons, hf, Option.getD_some]

theorem pureStep_length (df : DF) (columns : List String) (stats : List ColStat) :
    (pureStep df columns stats).length = min columns.length stats.length := by
  simp [pureStep, List.length_zipWith]

theorem stepChunk_ok_length {df : DF} {columns : List String} {stats st2 : List ColStat}
    (h : stats.length = columns.length) (hok : stepChunk columns stats df = .ok st2) :
    st2.length = columns.length := by
  rw [stepChunk_eq df columns stats h] at hok
  by_cases hb : chunkBad columns df
  · simp [hb] at hok
  · simp only [hb, Bool.false_eq_true, if_false, Except.ok.injEq] at hok
    rw [← hok, pureStep_length, h, Nat.min_self]

theorem chunkBad_dfTake (k : Nat) (columns : List String) (df : DF) :
    chunkBad columns (dfTake k df) = chunkBad columns df := by
  unfold chunkBad
  simp [findCol_dfTake]

theorem chunkBad_dfDrop (k : Nat) (columns : List String) (df : DF) :
    chunkBad columns (dfDrop k df) = chunkBad columns df := by
  unfold chunkBad
  simp [findCol_dfDrop]

theorem pureStep_take_drop (k : Nat) (df : DF) :
    ∀ (columns : List String) (stats : List ColStat),
      pureStep (dfDrop k df) columns (pureStep (dfTake k df) columns stats) =
        pureStep df columns stats := by
  intro columns
  induction columns with
  | nil => intro stats; rfl
  | cons c cs ih =>
    intro stats
    cases stats with
    | nil => rfl
    | cons st sts =>
      simp only [pureStep, List.zipWith_cons_cons]
      have hd : updateCol (updateCol st ((findCol c (dfTake k df)).getD []))
          ((findCol c (dfDrop k df)).getD []) = updateCol st ((findCol c df).getD []) := by
        rw [findCol_dfTake, findCol_dfDrop]
        cases hf : findCol c df with
        | none => simp [updateCol_append]
        | some vs => simp [updateCol_take_drop]
      have tl := ih sts
      simp only [pureStep] at tl
      rw [hd, tl]

theorem dfRowCount_dfDrop (k : Nat) (df : DF) :
    dfRowCount (dfDrop k df) = dfRowCount df - k := by
  cases df with
  | nil => simp [dfDrop, dfRowCount]
  | cons p rest => simp [dfDrop, dfRowCount]

theorem dfWF_dfDrop (k : Nat) {df : DF} (h : dfWF df) : dfWF (dfDrop k df) := by
  intro p hp q hq
  simp only [dfDrop, List.mem_map] at hp hq
  obtain ⟨p0, hp0, rfl⟩ := hp
  obtain ⟨q0, hq0, rfl⟩ := hq
  simp [List.length_drop, h p0 hp0 q0 hq0]

theorem dfTake_all (k : Nat) :
    ∀ df : DF, (∀ p ∈ df, p.2.length ≤ k) → dfTake k df = df := by
  intro df
  induction df with
  | nil => intro _; rfl
  | cons p rest ih =>
    intro h
    simp only [dfTake, List.map_cons] at ih ⊢
    rw [List.take_of_length_le (h p (by simp))]
    rw [ih (fun q hq => h q (by simp [hq]))]

theorem dfTake_of_count_le {k : Nat} {df : DF} (hwf : dfWF df) (h : dfRowCount df ≤ k) :
    dfTake k df = df := by
  apply dfTake_all
  intro p hp
  cases df with
  | nil => simp at hp
  | cons q rest =>
    have := hwf p hp q (by simp)
    simp only [dfRowCount] at h
    omega

theorem profileChunks_chunksOfAux (k : Nat) (hk : 1 ≤ k) (columns : List String) :
    ∀ (fuel : Nat) (df : DF) (stats : List ColStat),
      dfWF df → stats.length = columns.length → dfRowCount df ≤ fuel →
      profileChunks columns stats (chunksOfAux k fuel df) =
        if dfRowCount df = 0 then .ok stats else stepChunk columns stats df := by
  intro fuel
  induction fuel with
  | zero =>
    intro df stats hwf hlen hfu
    have h0 : dfRowCount df = 0 := Nat.le_zero.mp hfu
    simp [chunksOfAux, profileChunks, h0]
  | succ fuel ih =>
    intro df stats hwf hlen hfu
    by_cases h0 : dfRowCount df = 0
    · simp [chunksOfAux, h0, profileChunks]
    · simp only [chunksOfAux, if_neg h0, profileChunks]
      rw [stepChunk_eq (dfTake k df) columns stats hlen, chunkBad_dfTake]
      by_cases hb : chunkBad columns df
      · simp [hb, stepChunk_eq df columns stats hlen, if_neg h0]
      · simp only [hb, Bool.false_eq_true, if_false]
        have hwf2 : dfWF (dfDrop k df) := dfWF_dfDrop k hwf
        have hlen2 : (pureStep (dfTake k df) columns stats).length = columns.length := by
          rw [pureStep_length, hlen, Nat.min_self]
        have hfu2 : dfRowCount (dfDrop k df) ≤ fuel := by
          rw [dfRowCount_dfDrop]
          omega
        rw [ih (dfDrop k df) _ hwf2 hlen2 hfu2]
        by_cases hz : dfRowCount (dfDrop k df) = 0
        · rw [if_pos hz]
          have hklarge : dfRowCount df ≤ k := by
            rw [dfRowCount_dfDrop] at hz
            omega
          rw [dfTake_of_count_le hwf hklarge]
          rw [stepChunk_eq df columns stats hlen, if_neg hb]
        · rw [if_neg hz]
          rw [stepChunk_eq (dfDrop k df) columns _ hlen2, chunkBad_dfDrop, if_neg hb]
          rw [pureStep_take_drop]
          rw [stepChunk_eq df columns stats hlen, if_neg hb]

theorem initStats_length (columns : List String) :
    (initStats columns).length = columns.length := by
  simp [initStats]

theorem profileChunks_match_ident (e : Except Unit (List ColStat)) :
    (match e with
      | .error e2 => (.error e2 : Except Unit (List ColStat))
      | .ok st => .ok st) = e := by
  cases e <;> rfl

theorem profileChunks_chunksOf (k : Nat) (hk : 1 ≤ k) (columns : List String)
    (df : DF) (stats : List ColStat) (hwf : dfWF df)
    (hlen : stats.length = columns.length) :
    profileChunks columns stats (chunksOf k df) = stepChunk columns stats df := by
  unfold chunksOf
  by_cases h0 : dfRowCount df = 0
  · rw [if_pos h0]
    simp only [profileChunks]
    exact profileChunks_match_ident _
  · rw [if_neg h0]
    rw [profileChunks_chunksOfAux k hk columns (dfRowCount df) df stats hwf hlen (Nat.le_refl _)]
    rw [if_neg h0]

theorem profileFiles_chunk_indep (k1 k2 : Nat) (hk1 : 1 ≤ k1) (hk2 : 1 ≤ k2)
    (columns : List String) :
    ∀ (files : List DF) (stats : List ColStat),
      (∀ f ∈ files, dfWF f) → stats.length = columns.length →
      profileFiles k1 columns stats files = profileFiles k2 columns stats files := by
  intro files
  induction files with
  | nil => intro stats _ _; rfl
  | cons f rest ih =>
    intro stats hwf hlen
    simp only [profileFiles]
    rw [profileChunks_chunksOf k1 hk1 columns f stats (hwf f (by simp)) hlen]
    rw [profileChunks_chunksOf k2 hk2 columns f stats (hwf f (by simp)) hlen]
    cases hs : stepChunk columns stats f with
    | error e => rfl
    | ok st2 =>
      exact ih st2 (fun g hg => hwf g (by simp [hg])) (stepChunk_ok_length hlen hs)

theorem profileChunks_denote (columns : List String) :
    ∀ (chunks : List DF) (stats : List ColStat), stats.length = columns.length →
      profileChunks columns stats chunks =
        if chunks.any (chunkBad columns) then .error ()
        else .ok (chunks.foldl (fun st ck => pureStep ck columns st) stats) := by
  intro chunks
  induction chunks with
  | nil => intro stats _; rfl
  | cons ck rest ih =>
    intro stats h
    simp only [profileChunks, List.any_cons, List.foldl_cons]
    rw [stepChunk_eq ck columns stats h]
    by_cases hb : chunkBad columns ck
    · simp [hb]
    · simp only [hb, Bool.false_eq_true, if_false, Bool.false_or]
      exact ih _ (by rw [pureStep_length, h, Nat.min_self])

theorem perm_any {α : Type} {l1 l2 : List α} (h : l1.Perm l2) (p : α → Bool) :
    l1.any p = l2.any p := by
  cases ha : l1.any p with
  | true =>
    rw [List.any_eq_true] at ha
    obtain ⟨x, hx, hpx⟩ := ha
    exact (List.any_eq_true.mpr ⟨x, h.mem_iff.mp hx, hpx⟩).symm
  | false =>
    rw [List.any_eq_false] at ha
    symm
    rw [List.any_eq_false]
    intro x hx
    exact ha x (h.mem_iff.mpr hx)

theorem updateCol_comm (st : ColStat) (v1 v2 : List Value) :
    updateCol (updateCol st v1) v2 = updateCol (updateCol st v2) v1 := by
  unfold updateCol
  simp only [ColStat.mk.injEq]
  constructor
  · exact Max.right_comm st.max_len ((v1.map lenOf).foldl max 0) ((v2.map lenOf).foldl max 0)
  · have hor : ∀ a b c : Bool, (a || b || c) = (a || c || b) := by decide
    exact hor st.nullable (v1.any Option.isNone) (v2.any Option.isNone)

theorem pureStep_comm (ck1 ck2 : DF) :
    ∀ (columns : List String) (stats : List ColStat),
      pureStep ck2 columns (pureStep ck1 columns stats) =
        pureStep ck1 columns (pureStep ck2 columns stats) := by
  intro columns
  induction columns with
  | nil => intro stats; rfl
  | cons c cs ih =>
    intro stats
    cases stats with
    | nil => rfl
    | cons st sts =>
      simp only [pureStep, List.zipWith_cons_cons]
      have tl := ih sts
      simp only [pureStep] at tl
      rw [updateCol_comm, tl]

/-- C1: profiling is a pure max/OR reduction: for any rectangular corpus the
profile is the same for every chunk size `k ≥ 1`, and folding any chunk
sequence into the stats is invariant under reordering of the chunks. -/
theorem C1_profile_chunk_and_order_invariance :
    (∀ (columns : List String) (files : List DF) (k1 k2 : Nat),
        1 ≤ k1 → 1 ≤ k2 → (∀ f ∈ files, dfWF f) →
        profile_max_lengths k1 files columns = profile_max_lengths k2 files columns) ∧
      (∀ (columns : List String) (chunks1 chunks2 : List DF),
        chunks1.Perm chunks2 →
        profileChunks columns (initStats columns) chunks1 =
          profileChunks columns (initStats columns) chunks2) := by
  constructor
  · intro columns files k1 k2 hk1 hk2 hwf
    exact profileFiles_chunk_indep k1 k2 hk1 hk2 columns files (initStats columns) hwf
      (initStats_length columns)
  · intro columns c1 c2 hp
    rw [profileChunks_denote columns c1 _ (initStats_length columns),
      profileChunks_denote columns c2 _ (initStats_length columns)]
    rw [perm_any hp (chunkBad columns)]
    by_cases hb : c2.any (chunkBad columns)
    · simp [hb]
    · simp only [hb, Bool.false_eq_true, if_false, Except.ok.injEq]
      exact hp.foldl_eq' (fun x _ y _ z => pureStep_comm x y columns z) _

/-- C1 witness: a one-column corpus profiled with chunk sizes 1 and 2, and a
two-chunk sequence folded in either order. -/
theorem C1_profile_chunk_and_order_invariance_witness :
    profile_max_lengths 1 [[("a", [some "xy", none, some "z"])]] ["a"] =
      profile_max_lengths 2 [[("a", [some "xy", none, some "z"])]] ["a"] ∧
    profileChunks ["a"] (initStats ["a"])
        [[("a", [some "xy"])], [("a", [none, some "z"])]] =
      profileChunks ["a"] (initStats ["a"])
        [[("a", [none, some "z"])], [("a", [some "xy"])]] :=
  ⟨C1_profile_chunk_and_order_invariance.1 ["a"] [[("a", [some "xy", none, some "z"])]] 1 2
      (by decide) (by decide)
      (by
        intro f hf
        simp only [List.mem_singleton] at hf
        subst hf
        intro p hp q hq
        simp only [List.mem_singleton] at hp hq
        subst hp
        subst hq
        rfl),
    C1_profile_chunk_and_order_invariance.2 ["a"] _ _
      (List.Perm.swap [("a", [none, some "z"])] [("a", [some "xy"])] [])⟩

theorem profile_single (k : Nat) (hk : 1 ≤ k) (columns : List String) (df : DF)
    (hwf : dfWF df) :
    profile_max_lengths k [df] columns = stepChunk columns (initStats columns) df := by
  show (match profileChunks columns (initStats columns) (chunksOf k df) with
    | .error e => (.error e : Except Unit (List ColStat))
    | .ok st2 => profileFiles k columns st2 []) = _
  rw [profileChunks_chunksOf k hk columns df _ hwf (initStats_length columns)]
  simp only [profileFiles]
  exact profileChunks_match_ident _

theorem lenOf_decodeField (r : String) :
    lenOf (decodeField r) = if r ∈ PANDAS_DEFAULT_NA then 0 else r.length := by
  unfold decodeField
  by_cases h : r ∈ PANDAS_DEFAULT_NA
  · rw [if_pos h, if_pos h]
    rfl
  · rw [if_neg h, if_neg h]
    rfl

theorem isNone_decodeField (r : String) :
    (decodeField r).isNone = decide (r ∈ PANDAS_DEFAULT_NA) := by
  unfold decodeField
  by_cases h : r ∈ PANDAS_DEFAULT_NA
  · rw [if_pos h]
    simp [h]
  · rw [if_neg h]
    simp [h]

/-- C4 counterexample: the whitespace-only value `" "` is empty after
trimming, yet the profiler treats it as present — the profile of a corpus
holding only that value has `hasNull = false` and width 1, not width 0 with
`hasNull = true` as the claim requires. -/
theorem C4_counterexample :
    pyStrip " " = "" ∧ decodeField " " = some " " ∧
      profile_max_lengths 1 [[("c", [" "].map decodeField)]] ["c"] =
        .ok [⟨1, false⟩] :=
  ⟨rfl, rfl, rfl⟩

/-- C4 (amended): a raw field equal to one of the pandas default NA
sentinels (these include the empty string, but no whitespace-only string)
counts as absent — it flips `hasNull` and contributes length 0, not the
sentinel token's length; every other raw field, untrimmed, contributes its
length in Unicode scalar values. -/
theorem C4_absent_values_profile (k : Nat) (hk : 1 ≤ k) (raws : List String) :
    profile_max_lengths k [[("c", raws.map decodeField)]] ["c"] =
      .ok [⟨(raws.map fun r => if r ∈ PANDAS_DEFAULT_NA then 0 else r.length).foldl max 0,
            raws.any fun r => decide (r ∈ PANDAS_DEFAULT_NA)⟩] := by
  have hwf : dfWF [("c", raws.map decodeField)] := by
    intro p hp q hq
    simp only [List.mem_singleton] at hp hq
    subst hp
    subst hq
    rfl
  rw [profile_single k hk ["c"] _ hwf]
  · show stepCols _ ["c"] [⟨0, false⟩] = _
    simp only [stepCols, findCol]
    rw [if_pos (show pyStrip "c" = "c" from rfl)]
    simp only [updateCol, Nat.zero_max, Bool.false_or, List.map_map]
    have hlen : (raws.map (lenOf ∘ decodeField)) =
        raws.map fun r => if r ∈ PANDAS_DEFAULT_NA then 0 else r.length := by
      apply List.map_congr_left
      intro r _
      exact lenOf_decodeField r
    have hany : ∀ rs : List String, (rs.map decodeField).any Option.isNone =
        rs.any fun r => decide (r ∈ PANDAS_DEFAULT_NA) := by
      intro rs
      induction rs with
      | nil => rfl
      | cons r rt ih => simp only [List.map_cons, List.any_cons, ih, isNone_decodeField]
    rw [hlen, hany raws]

/-- C4 witness: the rule applied to the concrete stream
`["Jon", "", "NULL", "Alexandra"]`. -/
theorem C4_absent_values_profile_witness :
    profile_max_lengths 2 [[("c", ["Jon", "", "NULL", "Alexandra"].map decodeField)]] ["c"] =
      .ok [⟨(["Jon", "", "NULL", "Alexandra"].map
              fun r => if r ∈ PANDAS_DEFAULT_NA then 0 else r.length).foldl max 0,
            ["Jon", "", "NULL", "Alexandra"].any
              fun r => decide (r ∈ PANDAS_DEFAULT_NA)⟩] :=
  C4_absent_values_profile 2 (by decide) ["Jon", "", "NULL", "Alexandra"]

theorem selectCols_error {df : DF} {c : String} (hmiss : findCol c df = none) :
    ∀ columns : List String, c ∈ columns → selectCols df columns = .error () := by
  intro columns
  induction columns with
  | nil => intro h; simp at h
  | cons c2 cs ih =>
    intro hmem
    show selectCols df (c2 :: cs) = _
    simp only [selectCols]
    cases hf : findCol c2 df with
    | none => rfl
    | some vs =>
      have hc : c ∈ cs := by
        rcases List.mem_cons.mp hmem with h | h
        · subst h
          rw [hmiss] at hf
          exact absurd hf (by simp)
        · exact h
      rw [ih hc]

theorem profileChunks_ok_length {columns : List String} :
    ∀ {chunks : List DF} {stats st2 : List ColStat},
      profileChunks columns stats chunks = .ok st2 → stats.length = columns.length →
      st2.length = columns.length := by
  intro chunks
  induction chunks with
  | nil =>
    intro stats st2 hok hlen
    simp only [profileChunks, Except.ok.injEq] at hok
    rw [← hok]
    exact hlen
  | cons ck rest ih =>
    intro stats st2 hok hlen
    simp only [profileChunks] at hok
    cases hs : stepChunk columns stats ck with
    | error e => rw [hs] at hok; simp at hok
    | ok stmid =>
      rw [hs] at hok
      exact ih hok (stepChunk_ok_length hlen hs)

theorem chunkBad_of_missing {columns : List String} {f : DF} {c : String}
    (hc : c ∈ columns) (hmiss : findCol c f = none) : chunkBad columns f = true := by
  unfold chunkBad
  rw [List.any_eq_true]
  exact ⟨c, hc, by rw [hmiss]; rfl⟩

theorem profileChunks_missing_column {columns : List String} {k : Nat} {f : DF} {c : String}
    (hc : c ∈ columns) (hmiss : findCol c f = none) :
    ∀ stats : List ColStat, stats.length = columns.length →
      profileChunks columns stats (chunksOf k f) = .error () := by
  intro stats hlen
  unfold chunksOf
  by_cases h0 : dfRowCount f = 0
  · rw [if_pos h0]
    simp only [profileChunks]
    rw [stepChunk_eq f columns stats hlen, if_pos (chunkBad_of_missing hc hmiss)]
  · rw [if_neg h0]
    obtain ⟨n, hn⟩ : ∃ n, dfRowCount f = n + 1 := ⟨dfRowCount f - 1, by omega⟩
    rw [hn]
    simp only [chunksOfAux]
    rw [if_neg h0]
    simp only [profileChunks]
    rw [stepChunk_eq (dfTake k f) columns stats hlen, chunkBad_dfTake,
      if_pos (chunkBad_of_missing hc hmiss)]

theorem profileFiles_missing_column {columns : List String} {k : Nat} {f : DF} {c : String}
    (hc : c ∈ columns) (hmiss : findCol c f = none) :
    ∀ (pre post : List DF) (stats : List ColStat), stats.length = columns.length →
      profileFiles k columns stats (pre ++ f :: post) = .error () := by
  intro pre
  induction pre with
  | nil =>
    intro post stats hlen
    show (match profileChunks columns stats (chunksOf k f) with
      | .error e => (.error e : Except Unit (List ColStat))
      | .ok st2 => profileFiles k columns st2 post) = _
    rw [profileChunks_missing_column hc hmiss stats hlen]
  | cons p pre2 ih =>
    intro post stats hlen
    show (match profileChunks columns stats (chunksOf k p) with
      | .error e => (.error e : Except Unit (List ColStat))
      | .ok st2 => profileFiles k columns st2 (pre2 ++ f :: post)) = _
    cases hp : profileChunks columns stats (chunksOf k p) with
    | error e => rfl
    | ok st2 => exact ih post st2 (profileChunks_ok_length hp hlen)

theorem loadChunks_missing_column {columns : List String} {k : Nat} {f : DF} {c : String}
    (hc : c ∈ columns) (hmiss : findCol c f = none) :
    ∀ acc : List (List Value), loadChunks columns (chunksOf k f) acc = (acc, true) := by
  intro acc
  unfold chunksOf
  by_cases h0 : dfRowCount f = 0
  · rw [if_pos h0]
    simp only [loadChunks]
    rw [selectCols_error hmiss columns hc]
  · rw [if_neg h0]
    obtain ⟨n, hn⟩ : ∃ n, dfRowCount f = n + 1 := ⟨dfRowCount f - 1, by omega⟩
    rw [hn]
    simp only [chunksOfAux]
    rw [if_neg h0]
    simp only [loadChunks]
    have hmiss2 : findCol c (dfTake k f) = none := by
      rw [findCol_dfTake, hmiss]
      rfl
    rw [selectCols_error hmiss2 columns hc]

theorem loadFiles_missing_column {columns : List String} {k : Nat} {f : DF} {c : String}
    (hc : c ∈ columns) (hmiss : findCol c f = none) :
    ∀ (pre post : List DF) (acc : List (List Value)),
      loadFiles k columns (pre ++ f :: post) acc =
        ((loadFiles k columns pre acc).1, true) := by
  intro pre
  induction pre with
  | nil =>
    intro post acc
    simp only [List.nil_append, loadFiles]
    rw [loadChunks_missing_column hc hmiss acc]
  | cons p pre2 ih =>
    intro post acc
    simp only [List.cons_append, loadFiles]
    cases hl : loadChunks columns (chunksOf k p) acc with
    | mk acc2 flag =>
      cases flag with
      | true => rfl
      | false => exact ih post acc2

/-- C5 counterexample: a file column absent from the canonical header does
not abort the run — the extra column `"B"` is silently ignored by both the
profiler and the loader. -/
theorem C5_counterexample :
    ("B" ∉ ["A"]) ∧
      profile_max_lengths 1 [[("A", [some "x"]), ("B", [some "y"])]] ["A"] =
        .ok [⟨1, false⟩] ∧
      load_all_csvs 1 [[("A", [some "x"]), ("B", [some "y"])]] ["A"] =
        ([[some "x"]], false) :=
  ⟨by decide, rfl, rfl⟩

/-- C5 (amended): a canonical column missing from a file aborts both the
profiling pass and the load pass with the schema mismatch error — even for
a header-only file, since pandas still yields one (empty) first chunk whose
column lookup fails — and the load pass appends no row of that file (nor of
any later file) before the abort; a file column absent from the canonical
header is ignored, not rejected. -/
theorem C5_missing_column_aborts (columns : List String) (k : Nat)
    (pre post : List DF) (f : DF) (c : String)
    (hc : c ∈ columns) (hmiss : findCol c f = none) :
    profile_max_lengths k (pre ++ f :: post) columns = .error () ∧
      load_all_csvs k (pre ++ f :: post) columns =
        ((load_all_csvs k pre columns).1, true) :=
  ⟨profileFiles_missing_column hc hmiss pre post (initStats columns)
      (initStats_length columns),
    loadFiles_missing_column hc hmiss pre post []⟩

/-- C5 witness: the header-only file `[("A", [])]` is missing canonical
column `"B"`; with it as the only manifest entry, profiling errors and no
row is loaded, despite the file having zero data rows. -/
theorem C5_missing_column_aborts_witness :
    profile_max_lengths 2 [[("A", [])]] ["A", "B"] = .error () ∧
      load_all_csvs 2 [[("A", [])]] ["A", "B"] =
        ((load_all_csvs 2 [] ["A", "B"]).1, true) :=
  C5_missing_column_aborts ["A", "B"] 2 [] [] [("A", [])] "B" (by decide) rfl

theorem findCol_perm {dfA dfB : DF} (hp : dfA.Perm dfB) :
    (dfA.map (fun p => pyStrip p.1)).Nodup → ∀ c, findCol c dfA = findCol c dfB := by
  induction hp with
  | nil => intro _ c; rfl
  | cons p hp2 ih =>
    intro hnd c
    simp only [List.map_cons, List.nodup_cons] at hnd
    simp only [findCol]
    by_cases h : pyStrip p.1 = c
    · rw [if_pos h, if_pos h]
    · rw [if_neg h, if_neg h]
      exact ih hnd.2 c
  | swap x y l =>
    intro hnd c
    simp only [List.map_cons, List.nodup_cons, List.mem_cons] at hnd
    have hxy : pyStrip y.1 ≠ pyStrip x.1 := fun he => hnd.1 (Or.inl he)
    simp only [findCol]
    by_cases h1 : pyStrip y.1 = c
    · have h2 : ¬ pyStrip x.1 = c := fun he => hxy (h1.trans he.symm)
      rw [if_pos h1, if_neg h2, if_pos h1]
    · by_cases h2 : pyStrip x.1 = c
      · rw [if_neg h1, if_pos h2, if_pos h2]
      · rw [if_neg h1, if_neg h2, if_neg h2, if_neg h1]
  | trans h1 h2 ih1 ih2 =>
    intro hnd c
    have hnd2 := ((h1.map (fun p => pyStrip p.1)).nodup_iff).mp hnd
    exact (ih1 hnd c).trans (ih2 hnd2 c)

theorem names_dfTake (k : Nat) (df : DF) :
    (dfTake k df).map (fun p => pyStrip p.1) = df.map (fun p => pyStrip p.1) := by
  simp [dfTake, List.map_map, Function.comp]

theorem names_dfDrop (k : Nat) (df : DF) :
    (dfDrop k df).map (fun p => pyStrip p.1) = df.map (fun p => pyStrip p.1) := by
  simp [dfDrop, List.map_map, Function.comp]

theorem dfRowCount_perm {dfA dfB : DF} (hp : dfA.Perm dfB) (hwf : dfWF dfA) :
    dfRowCount dfA = dfRowCount dfB := by
  cases dfA with
  | nil => rw [← hp.nil_eq]
  | cons p rest =>
    cases dfB with
    | nil => exact absurd hp.eq_nil (by simp)
    | cons q restB =>
      have hq : q ∈ p :: rest := hp.mem_iff.mpr (by simp)
      exact hwf p (by simp) q hq

theorem stepCols_congr {d1 d2 : DF} (h : ∀ c, findCol c d1 = findCol c d2) :
    ∀ (columns : List String) (stats : List ColStat),
      stepCols d1 columns stats = stepCols d2 columns stats := by
  intro columns
  induction columns with
  | nil => intro stats; rfl
  | cons c cs ih =>
    intro stats
    cases stats with
    | nil => rfl
    | cons st sts =>
      simp only [stepCols, h c, ih sts]

theorem selectCols_congr {d1 d2 : DF} (h : ∀ c, findCol c d1 = findCol c d2) :
    ∀ columns : List String, selectCols d1 columns = selectCols d2 columns := by
  intro columns
  induction columns with
  | nil => rfl
  | cons c cs ih => simp only [selectCols, h c, ih]

theorem profileChunks_perm_file (k : Nat) (columns : List String) :
    ∀ (fuel : Nat) (dfA dfB : DF) (stats : List ColStat),
      dfA.Perm dfB → (dfA.map (fun p => pyStrip p.1)).Nodup → dfWF dfA →
      profileChunks columns stats (chunksOfAux k fuel dfA) =
        profileChunks columns stats (chunksOfAux k fuel dfB) := by
  intro fuel
  induction fuel with
  | zero => intro dfA dfB stats _ _ _; rfl
  | succ fuel ih =>
    intro dfA dfB stats hp hnd hwf
    have hrc : dfRowCount dfA = dfRowCount dfB := dfRowCount_perm hp hwf
    by_cases h0 : dfRowCount dfA = 0
    · rw [chunksOfAux, chunksOfAux, if_pos h0, if_pos (hrc ▸ h0)]
    · rw [chunksOfAux, chunksOfAux, if_neg h0, if_neg (show ¬ dfRowCount dfB = 0 by omega)]
      simp only [profileChunks]
      have hfc : ∀ c, findCol c dfA = findCol c dfB := findCol_perm hp hnd
      have hstep : stepChunk columns stats (dfTake k dfA) =
          stepChunk columns stats (dfTake k dfB) := by
        apply stepCols_congr
        intro c
        rw [findCol_dfTake, findCol_dfTake, hfc c]
      rw [hstep]
      cases hs : stepChunk columns stats (dfTake k dfB) with
      | error e => rfl
      | ok st2 =>
        refine ih (dfDrop k dfA) (dfDrop k dfB) st2 ?_
          (by rw [names_dfDrop]; exact hnd)
          (dfWF_dfDrop k hwf)
        have hmap := hp.map (fun p : String × List Value => (p.1, p.2.drop k))
        simpa [dfDrop] using hmap

theorem loadChunks_perm_file (k : Nat) (columns : List String) :
    ∀ (fuel : Nat) (dfA dfB : DF) (acc : List (List Value)),
      dfA.Perm dfB → (dfA.map (fun p => pyStrip p.1)).Nodup → dfWF dfA →
      loadChunks columns (chunksOfAux k fuel dfA) acc =
        loadChunks columns (chunksOfAux k fuel dfB) acc := by
  intro fuel
  induction fuel with
  | zero => intro dfA dfB acc _ _ _; rfl
  | succ fuel ih =>
    intro dfA dfB acc hp hnd hwf
    have hrc : dfRowCount dfA = dfRowCount dfB := dfRowCount_perm hp hwf
    by_cases h0 : dfRowCount dfA = 0
    · rw [chunksOfAux, chunksOfAux, if_pos h0, if_pos (hrc ▸ h0)]
    · rw [chunksOfAux, chunksOfAux, if_neg h0, if_neg (show ¬ dfRowCount dfB = 0 by omega)]
      simp only [loadChunks]
      have hfc : ∀ c, findCol c dfA = findCol c dfB := findCol_perm hp hnd
      have hsel : selectCols (dfTake k dfA) columns = selectCols (dfTake k dfB) columns := by
        apply selectCols_congr
        intro c
        rw [findCol_dfTake, findCol_dfTake, hfc c]
      rw [hsel]
      cases hs : selectCols (dfTake k dfB) columns with
      | error e => rfl
      | ok sel =>
        refine ih (dfDrop k dfA) (dfDrop k dfB) (acc ++ dfRows sel) ?_
          (by rw [names_dfDrop]; exact hnd)
          (dfWF_dfDrop k hwf)
        have hmap := hp.map (fun p : String × List Value => (p.1, p.2.drop k))
        simpa [dfDrop] using hmap

/-- C6: a file whose column list is a permutation of another's (with distinct
stripped column names) profiles identically and loads exactly the same rows
in canonical column order: both passes realign columns by name, not by
position. -/
theorem C6_column_permutation_invariance (columns : List String) (k : Nat)
    (dfA dfB : DF) (hp : dfA.Perm dfB)
    (hnd : (dfA.map (fun p => pyStrip p.1)).Nodup) (hwf : dfWF dfA) :
    profile_max_lengths k [dfA] columns = profile_max_lengths k [dfB] columns ∧
      load_all_csvs k [dfA] columns = load_all_csvs k [dfB] columns := by
  have hrc : dfRowCount dfA = dfRowCount dfB := dfRowCount_perm hp hwf
  have hchunks : profileChunks columns (initStats columns) (chunksOf k dfA) =
      profileChunks columns (initStats columns) (chunksOf k dfB) := by
    unfold chunksOf
    rw [← hrc]
    by_cases h0 : dfRowCount dfA = 0
    · rw [if_pos h0, if_pos h0]
      simp only [profileChunks]
      have hstep : stepChunk columns (initStats columns) dfA =
          stepChunk columns (initStats columns) dfB :=
        stepCols_congr (findCol_perm hp hnd) columns (initStats columns)
      rw [hstep]
    · rw [if_neg h0, if_neg h0]
      exact profileChunks_perm_file k columns (dfRowCount dfA) dfA dfB _ hp hnd hwf
  have hload : loadChunks columns (chunksOf k dfA) [] =
      loadChunks columns (chunksOf k dfB) [] := by
    unfold chunksOf
    rw [← hrc]
    by_cases h0 : dfRowCount dfA = 0
    · rw [if_pos h0, if_pos h0]
      simp only [loadChunks]
      have hsel : selectCols dfA columns = selectCols dfB columns :=
        selectCols_congr (findCol_perm hp hnd) columns
      rw [hsel]
    · rw [if_neg h0, if_neg h0]
      exact loadChunks_perm_file k columns (dfRowCount dfA) dfA dfB [] hp hnd hwf
  constructor
  · simp only [profile_max_lengths, profileFiles]
    rw [hchunks]
  · simp only [load_all_csvs, loadFiles]
    rw [hload]

/-- C6 witness: the two-column file with columns `A`, `B` and its
column-swapped variant profile and load identically. -/
theorem C6_column_permutation_invariance_witness :
    profile_max_lengths 1 [[("A", [some "x"]), ("B", [some "yy"])]] ["A", "B"] =
      profile_max_lengths 1 [[("B", [some "yy"]), ("A", [some "x"])]] ["A", "B"] ∧
    load_all_csvs 1 [[("A", [some "x"]), ("B", [some "yy"])]] ["A", "B"] =
      load_all_csvs 1 [[("B", [some "yy"]), ("A", [some "x"])]] ["A", "B"] :=
  C6_column_permutation_invariance ["A", "B"] 1
    [("A", [some "x"]), ("B", [some "yy"])] [("B", [some "yy"]), ("A", [some "x"])]
    (List.Perm.swap ("B", [some "yy"]) ("A", [some "x"]) [])
    (by decide) (by unfold dfWF; decide)

theorem unnamedSub_length (fields : List String) :
    (unnamedSub fields).length = fields.length := by
  simp [unnamedSub, List.enum_length]

theorem getCount_setCount_ne :
    ∀ (counts : List (String × Nat)) (c d : String) (v : Nat), c ≠ d →
      getCount (setCount counts c v) d = getCount counts d := by
  intro counts
  induction counts with
  | nil =>
    intro c d v hne
    simp only [setCount, getCount]
    rw [if_neg hne]
  | cons p rest ih =>
    intro c d v hne
    simp only [setCount]
    by_cases hpc : p.1 = c
    · simp only [if_pos hpc, getCount]
      rw [if_neg hne, if_neg (by rw [hpc]; exact hne)]
    · simp only [if_neg hpc, getCount]
      by_cases hpd : p.1 = d
      · rw [if_pos hpd, if_pos hpd]
      · rw [if_neg hpd, if_neg hpd]
        exact ih c d v hne

theorem dedupWhile_fresh {counts : List (String × Nat)} {col : String}
    (h : getCount counts col = 0) :
    ∀ fuel : Nat, dedupWhile fuel counts col = (col, counts) := by
  intro fuel
  cases fuel with
  | zero => rfl
  | succ fuel =>
    simp only [dedupWhile, h]
    rfl

theorem dedupNames_length :
    ∀ (names : List String) (counts : List (String × Nat)),
      (dedupNames counts names).length = names.length := by
  intro names
  induction names with
  | nil => intro counts; rfl
  | cons c rest ih =>
    intro counts
    simp only [dedupNames]
    cases hw : dedupWhile (counts.length + 1) counts c with
    | mk col counts2 => simp [ih]

theorem dedupNames_id :
    ∀ (names : List String) (counts : List (String × Nat)),
      names.Nodup → (∀ n ∈ names, getCount counts n = 0) →
      dedupNames counts names = names := by
  intro names
  induction names with
  | nil => intro counts _ _; rfl
  | cons c rest ih =>
    intro counts hnd hfresh
    simp only [dedupNames]
    rw [dedupWhile_fresh (hfresh c (by simp)) (counts.length + 1)]
    have hc0 : getCount counts c = 0 := hfresh c (by simp)
    have hrest : dedupNames (setCount counts c (getCount counts c + 1)) rest = rest := by
      apply ih
      · exact (List.nodup_cons.mp hnd).2
      · intro n hn
        have hcn : c ≠ n := by
          intro he
          exact (List.nodup_cons.mp hnd).1 (he ▸ hn)
        rw [getCount_setCount_ne counts c n _ hcn]
        exact hfresh n (by simp [hn])
    rw [hrest]

end BatchCSV

namespace BulkCSV

theorem splitFields_ne_nil (sep : Char) : ∀ l : List Char, splitFields sep l ≠ [] := by
  intro l
  induction l with
  | nil => simp [splitFields]
  | cons c rest ih =>
    simp only [splitFields]
    by_cases h : c = sep
    · simp [h]
    · simp only [if_neg h]
      cases hs : splitFields sep rest with
      | nil => simp
      | cons f fs => simp

theorem header_fields_ne_nil (line : String) :
    ((splitFields FIELDTERMINATOR (rstripCRLF line).data).map
      (fun f => pyStrip (String.mk f))).isEmpty = false := by
  rw [List.isEmpty_eq_false]
  intro hcon
  exact splitFields_ne_nil FIELDTERMINATOR (rstripCRLF line).data
    (List.eq_nil_of_map_eq_nil hcon)

theorem bulk_header_reader_spec (line : String) :
    ((∃ e, read_header_columns line = .error e) ↔
      ((splitFields FIELDTERMINATOR (rstripCRLF line).data).map
          (fun f => pyStrip (String.mk f))).any (fun c => c = "") = true) ∧
      (((splitFields FIELDTERMINATOR (rstripCRLF line).data).map
          (fun f => pyStrip (String.mk f))).any (fun c => c = "") = false →
        read_header_columns line = .ok
          ((splitFields FIELDTERMINATOR (rstripCRLF line).data).map
            (fun f => pyStrip (String.mk f)))) := by
  have hne := header_fields_ne_nil line
  cases hany : ((splitFields FIELDTERMINATOR (rstripCRLF line).data).map
      (fun f => pyStrip (String.mk f))).any (fun c => c = "") with
  | true =>
    have hread : read_header_columns line = .error () := by
      simp only [read_header_columns]
      rw [hne, hany]
      rfl
    refine ⟨⟨fun _ => rfl, fun _ => ⟨(), hread⟩⟩, ?_⟩
    intro hfalse
    exact absurd hfalse (by simp)
  | false =>
    have hread : read_header_columns line = .ok
        ((splitFields FIELDTERMINATOR (rstripCRLF line).data).map
          (fun f => pyStrip (String.mk f))) := by
      simp only [read_header_columns]
      rw [hne, hany]
      rfl
    refine ⟨⟨?_, fun h => absurd h (by simp)⟩, fun _ => hread⟩
    intro hex
    obtain ⟨e, he⟩ := hex
    rw [hread] at he
    exact absurd he (by simp)

/-- C7 counterexample: the header `"a,,b"` has a field that is empty after
trimming, so per the claim the Header Reader must fail with
`MalformedHeader`; but `read_header_columns` of `BatchCSVtoSQL.py` (pandas
`read_csv`) does not fail — it returns the column `Unnamed: 1` in that
position. -/
theorem C7_counterexample :
    (splitFields BatchCSV.CSV_SEPARATOR (rstripCRLF "a,,b").data).map
        (fun f => pyStrip (String.mk f)) = ["a", "", "b"] ∧
      BatchCSV.read_header_columns "a,,b" = ["a", "Unnamed: 1", "b"] :=
  ⟨rfl, rfl⟩

/-- C7 (amended): the two header readers behave differently.
`BulkCSVtoSQL`'s reader fails exactly when some field is empty after
whitespace stripping (its bare one-character split always succeeds, so the
malformed-split failure never fires), and otherwise returns the ordered
stripped fields. `BatchCSVtoSQL`'s pandas-based reader never fails: it
always returns one name per field — an empty field becomes
`Unnamed: <position>` and duplicate names are suffixed — each then
whitespace-stripped. -/
theorem C7_header_readers (line : String) :
    ((∃ e, read_header_columns line = .error e) ↔
      ((splitFields FIELDTERMINATOR (rstripCRLF line).data).map
          (fun f => pyStrip (String.mk f))).any (fun c => c = "") = true) ∧
      (((splitFields FIELDTERMINATOR (rstripCRLF line).data).map
          (fun f => pyStrip (String.mk f))).any (fun c => c = "") = false →
        read_header_columns line = .ok
          ((splitFields FIELDTERMINATOR (rstripCRLF line).data).map
            (fun f => pyStrip (String.mk f)))) ∧
      (BatchCSV.read_header_columns line).length =
        (BatchCSV.headerFields line).length ∧
      ((BatchCSV.unnamedSub (BatchCSV.headerFields line)).Nodup →
        BatchCSV.read_header_columns line =
          (BatchCSV.unnamedSub (BatchCSV.headerFields line)).map pyStrip) := by
  refine ⟨(bulk_header_reader_spec line).1, (bulk_header_reader_spec line).2, ?_, ?_⟩
  · unfold BatchCSV.read_header_columns
    rw [List.length_map, BatchCSV.dedupNames_length, BatchCSV.unnamedSub_length]
  · intro hnd
    unfold BatchCSV.read_header_columns
    rw [BatchCSV.dedupNames_id _ [] hnd (fun n _ => rfl)]

/-- C7 witness: the Bulk reader on `" a ,b"` returns the stripped columns,
and the pandas-based Batch reader on `"a,,b"` returns the `Unnamed: 1`
substitution instead of failing. -/
theorem C7_header_readers_witness :
    read_header_columns " a ,b" = .ok
        ((splitFields FIELDTERMINATOR (rstripCRLF " a ,b").data).map
          (fun f => pyStrip (String.mk f))) ∧
      BatchCSV.read_header_columns "a,,b" =
        (BatchCSV.unnamedSub (BatchCSV.headerFields "a,,b")).map pyStrip :=
  ⟨(C7_header_readers " a ,b").2.1 (by rfl),
    (C7_header_readers "a,,b").2.2.2 (by decide)⟩

theorem digitVal_digitChar : ∀ d < 10, digitVal (digitChar d) = d := by decide

theorem parseDigits_append_digit (l : List Char) (c : Char) :
    parseDigits (l ++ [c]) = 10 * parseDigits l + digitVal c := by
  unfold parseDigits
  rw [List.foldl_append]
  rfl

theorem parseDigits_natDigitsAux :
    ∀ fuel n : Nat, n ≤ fuel → parseDigits (natDigitsAux fuel n) = n := by
  intro fuel
  induction fuel with
  | zero =>
    intro n hn
    have h0 : n = 0 := Nat.le_zero.mp hn
    subst h0
    decide
  | succ fuel ih =>
    intro n hn
    by_cases h : n < 10
    · simp only [natDigitsAux, if_pos h]
      show parseDigits [digitChar n] = n
      unfold parseDigits
      simp only [List.foldl_cons, List.foldl_nil, Nat.mul_zero, Nat.zero_add]
      exact digitVal_digitChar n h
    · simp only [natDigitsAux, if_neg h]
      rw [parseDigits_append_digit]
      rw [ih (n / 10) (by omega)]
      rw [digitVal_digitChar (n % 10) (by omega)]
      omega

theorem natStr_inj {m n : Nat} (h : natStr m = natStr n) : m = n := by
  have hd : natDigitsAux m m = natDigitsAux n n := congrArg String.data h
  have hp := congrArg parseDigits hd
  rw [parseDigits_natDigitsAux m m (Nat.le_refl m),
    parseDigits_natDigitsAux n n (Nat.le_refl n)] at hp
  exact hp

theorem suffixName_inj (col : String) {i j : Nat}
    (h : suffixName col i = suffixName col j) : i = j := by
  apply natStr_inj (m := i) (n := j)
  unfold suffixName at h
  have hd := congrArg String.data h
  simp only [String.data_append] at hd
  rw [List.append_assoc, List.append_assoc] at hd
  have h2 := List.append_cancel_left hd
  have h3 := List.append_cancel_left h2
  exact congrArg String.mk h3

theorem fresh_suffix_exists (c : String) (seen : List String) :
    ∃ m, 2 ≤ m ∧ m < 2 + (seen.length + 1) ∧ suffixName c m ∉ seen := by
  by_contra hcon
  push_neg at hcon
  have hsub : ∀ x ∈ (List.range (seen.length + 1)).map (fun j => suffixName c (j + 2)),
      x ∈ seen := by
    intro x hx
    simp only [List.mem_map, List.mem_range] at hx
    obtain ⟨j, hj, rfl⟩ := hx
    exact hcon (j + 2) (by omega) (by omega)
  have hnd : ((List.range (seen.length + 1)).map (fun j => suffixName c (j + 2))).Nodup := by
    apply List.Nodup.map
    · intro a b hab
      have := suffixName_inj c hab
      omega
    · exact List.nodup_range _
  have hcard1 : ((List.range (seen.length + 1)).map
      (fun j => suffixName c (j + 2))).toFinset.card = seen.length + 1 := by
    rw [List.toFinset_card_of_nodup hnd]
    simp
  have hcard2 : ((List.range (seen.length + 1)).map
      (fun j => suffixName c (j + 2))).toFinset.card ≤ seen.toFinset.card := by
    apply Finset.card_le_card
    intro x hx
    rw [List.mem_toFinset] at hx ⊢
    exact hsub x hx
  have hcard3 : seen.toFinset.card ≤ seen.length := by
    apply List.toFinset_card_le
  omega

theorem findSuffixAux_spec (c : String) (seen : List String) :
    ∀ (fuel i : Nat), (∃ m, i ≤ m ∧ m < i + fuel ∧ suffixName c m ∉ seen) →
      suffixName c (findSuffixAux c seen fuel i) ∉ seen ∧
        i ≤ findSuffixAux c seen fuel i ∧
        ∀ j, i ≤ j → j < findSuffixAux c seen fuel i → suffixName c j ∈ seen := by
  intro fuel
  induction fuel with
  | zero =>
    intro i hex
    obtain ⟨m, h1, h2, _⟩ := hex
    omega
  | succ fuel ih =>
    intro i hex
    by_cases hi : suffixName c i ∈ seen
    · simp only [findSuffixAux, if_pos hi]
      have hex2 : ∃ m, i + 1 ≤ m ∧ m < (i + 1) + fuel ∧ suffixName c m ∉ seen := by
        obtain ⟨m, h1, h2, h3⟩ := hex
        refine ⟨m, ?_, by omega, h3⟩
        rcases Nat.eq_or_lt_of_le h1 with he | hl
        · subst he
          exact absurd hi h3
        · omega
      obtain ⟨ha, hb, hc2⟩ := ih (i + 1) hex2
      refine ⟨ha, by omega, ?_⟩
      intro j hij hjlt
      rcases Nat.eq_or_lt_of_le hij with he | hl
      · rw [← he]
        exact hi
      · exact hc2 j (by omega) hjlt
    · simp only [findSuffixAux, if_neg hi]
      exact ⟨hi, Nat.le_refl i, fun j h1 h2 => absurd h2 (by omega)⟩

theorem findSuffix_spec (c : String) (seen : List String) :
    suffixName c (findSuffix c seen) ∉ seen ∧ 2 ≤ findSuffix c seen ∧
      ∀ j, 2 ≤ j → j < findSuffix c seen → suffixName c j ∈ seen := by
  have hex : ∃ m, 2 ≤ m ∧ m < 2 + (seen.length + 1) ∧ suffixName c m ∉ seen :=
    fresh_suffix_exists c seen
  exact findSuffixAux_spec c seen (seen.length + 1) 2 hex

theorem pickName_not_mem (seen : List String) (c : String) : pickName seen c ∉ seen := by
  unfold pickName
  by_cases h : c ∈ seen
  · rw [if_pos h]
    exact (findSuffix_spec c seen).1
  · rw [if_neg h]
    exact h

theorem dedupAux_length : ∀ (cols seen : List String),
    (dedupAux seen cols).length = cols.length := by
  intro cols
  induction cols with
  | nil => intro seen; rfl
  | cons c rest ih =>
    intro seen
    simp only [dedupAux, List.length_cons, ih]

theorem dedupAux_nodup : ∀ (cols seen : List String),
    (dedupAux seen cols).Nodup ∧ ∀ x ∈ dedupAux seen cols, x ∉ seen := by
  intro cols
  induction cols with
  | nil => intro seen; exact ⟨List.nodup_nil, by simp [dedupAux]⟩
  | cons c rest ih =>
    intro seen
    obtain ⟨ihn, ihm⟩ := ih (seen ++ [pickName seen c])
    constructor
    · rw [show dedupAux seen (c :: rest) =
        pickName seen c :: dedupAux (seen ++ [pickName seen c]) rest from rfl]
      rw [List.nodup_cons]
      refine ⟨?_, ihn⟩
      intro hmem
      have := ihm _ hmem
      simp at this
    · intro x hx hxs
      rw [show dedupAux seen (c :: rest) =
        pickName seen c :: dedupAux (seen ++ [pickName seen c]) rest from rfl] at hx
      rcases List.mem_cons.mp hx with he | hx2
      · rw [he] at hxs
        exact pickName_not_mem seen c hxs
      · exact ihm x hx2 (by simp [hxs])

theorem dedupAux_spec_at :
    ∀ (cols seen : List String) (i : Nat), i < cols.length →
      (cols.getD i "" ∉ seen ++ (dedupAux seen cols).take i →
        (dedupAux seen cols).getD i "" = cols.getD i "") ∧
      (cols.getD i "" ∈ seen ++ (dedupAux seen cols).take i →
        ∃ k, 2 ≤ k ∧
          (dedupAux seen cols).getD i "" = suffixName (cols.getD i "") k ∧
          suffixName (cols.getD i "") k ∉ seen ++ (dedupAux seen cols).take i ∧
          ∀ j, 2 ≤ j → j < k →
            suffixName (cols.getD i "") j ∈ seen ++ (dedupAux seen cols).take i) := by
  intro cols
  induction cols with
  | nil => intro seen i h; simp at h
  | cons c rest ih =>
    intro seen i h
    have hd : dedupAux seen (c :: rest) =
        pickName seen c :: dedupAux (seen ++ [pickName seen c]) rest := rfl
    cases i with
    | zero =>
      rw [hd]
      simp only [List.getD_cons_zero, List.take_zero, List.append_nil]
      constructor
      · intro hnm
        unfold pickName
        rw [if_neg hnm]
      · intro hm
        unfold pickName
        rw [if_pos hm]
        obtain ⟨h1, h2, h3⟩ := findSuffix_spec c seen
        exact ⟨findSuffix c seen, h2, rfl, h1, h3⟩
    | succ i2 =>
      rw [hd]
      simp only [List.getD_cons_succ, List.take_succ_cons]
      have hih := ih (seen ++ [pickName seen c]) i2 (by simpa using h)
      rw [List.append_assoc] at hih
      exact hih

/-- C8 counterexample: in the header `["A", "A", "A_2"]` the first (and
only) occurrence of `"A_2"` is renamed to `"A_2_2"`, because the
synthesized name `"A_2"` had already taken it — so "the first occurrence of
each name is unchanged" fails. -/
theorem C8_counterexample :
    dedupCols ["A", "A", "A_2"] = ["A", "A_2", "A_2_2"] ∧
      ["A", "A", "A_2"].getD 2 "" = "A_2" ∧ "A_2" ∉ ["A", "A"] ∧
      (dedupCols ["A", "A", "A_2"]).getD 2 "" ≠ "A_2" :=
  ⟨rfl, rfl, by decide, by decide⟩

/-- C8 (amended): deduplication is deterministic and collision-free: the
output keeps the input's length, has no duplicates, `["A", "A", "A"]`
becomes `["A", "A_2", "A_3"]`, and positionally a name not among the
previously assigned output names is kept unchanged, while a name already
assigned becomes `name_k` for the smallest suffix `k ≥ 2` not already
taken by a previously assigned output name. -/
theorem C8_dedup_characterization :
    (∀ columns : List String,
      (dedupCols columns).length = columns.length ∧ (dedupCols columns).Nodup) ∧
      dedupCols ["A", "A", "A"] = ["A", "A_2", "A_3"] ∧
      ∀ (columns : List String) (i : Nat), i < columns.length →
        (columns.getD i "" ∉ (dedupCols columns).take i →
          (dedupCols columns).getD i "" = columns.getD i "") ∧
        (columns.getD i "" ∈ (dedupCols columns).take i →
          ∃ k, 2 ≤ k ∧
            (dedupCols columns).getD i "" = suffixName (columns.getD i "") k ∧
            suffixName (columns.getD i "") k ∉ (dedupCols columns).take i ∧
            ∀ j, 2 ≤ j → j < k →
              suffixName (columns.getD i "") j ∈ (dedupCols columns).take i) := by
  refine ⟨fun columns => ⟨dedupAux_length columns [], (dedupAux_nodup columns []).1⟩,
    rfl, ?_⟩
  intro columns i h
  exact dedupAux_spec_at columns [] i h

/-- C8 witness: at index 2 of `["A", "A", "A_2"]` the name collides with a
previously assigned one and receives the smallest fresh suffix. -/
theorem C8_dedup_characterization_witness :
    ∃ k, 2 ≤ k ∧
      (dedupCols ["A", "A", "A_2"]).getD 2 "" =
        suffixName (["A", "A", "A_2"].getD 2 "") k ∧
      suffixName (["A", "A", "A_2"].getD 2 "") k ∉ (dedupCols ["A", "A", "A_2"]).take 2 ∧
      ∀ j, 2 ≤ j → j < k →
        suffixName (["A", "A", "A_2"].getD 2 "") j ∈ (dedupCols ["A", "A", "A_2"]).take 2 :=
  (C8_dedup_characterization.2.2 ["A", "A", "A_2"] 2 (by decide)).2 (by decide)

/-- C9: every successful run probes the store once and takes exactly one
lifecycle action, decided solely by that probe, before any bulk insert:
table present means truncate, keeping the pre-existing table's columns
untouched (no reconciliation against any inferred schema); table missing
means create from the first manifest file's header. -/
theorem C9_lifecycle_single_probe (st : Store) (files : List CsvFile)
    (st2 : Store) (evs : List Event) (hok : main st files = .ok (st2, evs)) :
    ∃ act : Event,
      evs = Event.probe st.tablePresent :: act ::
          files.map (fun f => Event.bulkInsert f.path) ∧
      (st.tablePresent = true →
        act = Event.truncateTable ∧ st2.tableCols = st.tableCols ∧
          st2.tableRows = files.map CsvFile.path) ∧
      (st.tablePresent = false →
        ∃ cols, read_header_columns (files.headD ⟨"", ""⟩).headerLine = .ok cols ∧
          act = Event.createTable (dedupCols cols) ∧
          st2.tableCols = dedupCols cols) := by
  unfold main at hok
  by_cases hemp : files.isEmpty
  · rw [if_pos hemp] at hok
    exact absurd hok (by simp)
  · rw [if_neg hemp] at hok
    by_cases hp : st.tablePresent
    · rw [if_pos hp] at hok
      simp only [Except.ok.injEq, Prod.mk.injEq] at hok
      obtain ⟨hst, hevs⟩ := hok
      refine ⟨Event.truncateTable, ?_, ?_, ?_⟩
      · rw [← hevs, hp]
      · intro _
        exact ⟨rfl, by rw [← hst], by rw [← hst]⟩
      · intro hfalse
        rw [hp] at hfalse
        exact absurd hfalse (by simp)
    · rw [if_neg hp] at hok
      have hpf : st.tablePresent = false := by
        cases hst2 : st.tablePresent with
        | true => exact absurd hst2 hp
        | false => rfl
      cases hh : read_header_columns (files.headD ⟨"", ""⟩).headerLine with
      | error e =>
        rw [hh] at hok
        exact absurd hok (by simp)
      | ok cols =>
        rw [hh] at hok
        simp only [Except.ok.injEq, Prod.mk.injEq] at hok
        obtain ⟨hst, hevs⟩ := hok
        refine ⟨Event.createTable (dedupCols cols), ?_, ?_, ?_⟩
        · rw [← hevs, hpf]
        · intro htrue
          exact absurd htrue hp
        · intro _
          exact ⟨cols, rfl, rfl, by rw [← hst]⟩

/-- C9 witness: with an existing table, the run truncates (keeping the
columns `["c"]` as-is) and then bulk-inserts the single manifest file. -/
theorem C9_lifecycle_single_probe_witness :
    ∃ act : Event,
      [Event.probe true, Event.truncateTable, Event.bulkInsert "f1"] =
        Event.probe true :: act :: [Event.bulkInsert "f1"] ∧
      (true = true → act = Event.truncateTable ∧
        (["c"] : List String) = ["c"] ∧ (["f1"] : List String) = ["f1"]) ∧
      (true = false →
        ∃ cols, read_header_columns "a,b" = .ok cols ∧
          act = Event.createTable (dedupCols cols) ∧
          (["c"] : List String) = dedupCols cols) :=
  C9_lifecycle_single_probe ⟨true, ["c"], []⟩ [⟨"f1", "a,b"⟩] ⟨true, ["c"], ["f1"]⟩
    [Event.probe true, Event.truncateTable, Event.bulkInsert "f1"] rfl

theorem renderColDef_eq (c : String) :
    renderColDef ⟨c, DEFAULT_VARCHAR_LEN, true⟩ = colDefSql c := by
  show qident c ++ " VARCHAR(" ++ natStr DEFAULT_VARCHAR_LEN ++ ") " ++ "NULL" =
    qident c ++ " VARCHAR(" ++ natStr DEFAULT_VARCHAR_LEN ++ ") NULL"
  rw [String.append_assoc (qident c ++ " VARCHAR(" ++ natStr DEFAULT_VARCHAR_LEN) ") " "NULL"]
  congr 1

/-- C10: on the header-only create path every column of the created table
is declared with the fixed default width and as nullable
(`VARCHAR(DEFAULT_VARCHAR_LEN) NULL`), regardless of the corpus data; no
column is ever declared NOT NULL on this path. -/
theorem C10_header_create_default_width_nullable (schema table : String)
    (columns : List String) :
    ∃ cds : List ColDef,
      create_table_from_header schema table columns =
        "CREATE TABLE " ++ qident schema ++ "." ++ qident table ++ " (\n  " ++
          String.intercalate ",\n  " (cds.map renderColDef) ++ "\n);" ∧
      cds.map ColDef.name = dedupCols columns ∧
      ∀ cd ∈ cds, cd.width = DEFAULT_VARCHAR_LEN ∧ cd.nullable = true := by
  refine ⟨(dedupCols columns).map (fun c => ⟨c, DEFAULT_VARCHAR_LEN, true⟩), ?_, ?_, ?_⟩
  · unfold create_table_from_header
    rw [List.map_map]
    have hcomp : (renderColDef ∘ fun c => (⟨c, DEFAULT_VARCHAR_LEN, true⟩ : ColDef)) =
        colDefSql := by
      funext c
      exact renderColDef_eq c
    rw [hcomp]
  · rw [List.map_map]
    have hide : (ColDef.name ∘ fun c => (⟨c, DEFAULT_VARCHAR_LEN, true⟩ : ColDef)) = id := rfl
    rw [hide, List.map_id]
  · intro cd hcd
    simp only [List.mem_map] at hcd
    obtain ⟨c, _, rfl⟩ := hcd
    exact ⟨rfl, rfl⟩

end BulkCSV
